import Mathlib

/-
  Verification development for the lockbox synchronization backend.

  The embedding mirrors src/src/lockbox_service_handler.cc and
  src/src/update_queuer.cc.  C++ strings are embedded as lists of
  characters.  The persistent key-value manager (DBManagerServer) is
  embedded as an association list from typed keys to string values,
  following the (namespace, partition-name, key) addressing of the
  data model.  External primitives (SHA1, the Thrift wire encoding,
  GUID generation) are parameters of the operations that use them.
-/

namespace Lockbox

/-- A C++ std::string, embedded as its list of characters. -/
abbrev Str := List Char

/-- The ServerDB namespace enumeration used by the handlers and the
fanout worker (values referenced from the two source files). -/
inductive ServerDB where
  | EMAIL_USER
  | USER_DEVICE
  | USER_TOP_DIR
  | TOP_DIR_PLACEHOLDER
  | TOP_DIR_META
  | TOP_DIR_RELPATH
  | TOP_DIR_RELPATH_LOCK
  | TOP_DIR_FPTRS
  | TOP_DIR_DATA
  | UPDATE_ACTION_QUEUE
  | UPDATE_ACTION_LOG
  | DEVICE_SYNC
deriving DecidableEq

/-- A fully-qualified cell address: namespace, partition name
(DBManagerServer::Options::name) and key. -/
structure DBKey where
  db : ServerDB
  name : Str
  key : Str
deriving DecidableEq

/-- Modelled from the spec: DBManagerServer (not under src/) is the
namespaced store of section 4.1 plus the monotonic identifier counters
(GetNextUserID, GetNextDeviceID, GetNextTopDirID) of section 4.2.
Cells are an association list; counters are natural numbers. -/
structure Store where
  entries : List (DBKey × Str)
  nextUserID : Nat
  nextDeviceID : Nat
  nextTopDirID : Nat
deriving DecidableEq

/-- Lookup: some value when the key is present, none when absent. -/
def Store.get? (s : Store) (k : DBKey) : Option Str :=
  (s.entries.find? (fun p => decide (p.1 = k))).map (fun p => p.2)

/-- Lookup as seen by the C++ callers that pass a string by pointer:
an absent key leaves the output string empty. -/
def Store.getD (s : Store) (k : DBKey) : Str :=
  (s.get? k).getD []

/-- Put: overwrite, keeping at most one entry per key. -/
def Store.put (s : Store) (k : DBKey) (v : Str) : Store :=
  { s with entries := (k, v) :: s.entries.filter (fun p => !decide (p.1 = k)) }

/-- Delete: remove every entry for the key. -/
def Store.delete (s : Store) (k : DBKey) : Store :=
  { s with entries := s.entries.filter (fun p => !decide (p.1 = k)) }

/-- Number of physical entries stored under a key. -/
def Store.countKey (s : Store) (k : DBKey) : Nat :=
  s.entries.countP (fun p => decide (p.1 = k))

theorem find?_filter_ne {l : List (DBKey × Str)} {k k' : DBKey} (h : k' ≠ k) :
    (l.filter (fun p => !decide (p.1 = k))).find? (fun p => decide (p.1 = k')) =
      l.find? (fun p => decide (p.1 = k')) := by
  have hne : ¬(k = k') := fun hh => h hh.symm
  have hne' : ¬(k' = k) := h
  induction l with
  | nil => rfl
  | cons a l ih =>
    by_cases ha : a.1 = k
    · simp [List.filter, List.find?, ha, hne, hne', ih]
    · by_cases ha' : a.1 = k'
      · simp [List.filter, List.find?, ha, ha', hne, hne']
      · simp [List.filter, List.find?, ha, ha', ih]

@[simp] theorem Store.get?_put_self (s : Store) (k : DBKey) (v : Str) :
    (s.put k v).get? k = some v := by
  simp [Store.get?, Store.put, List.find?]

theorem Store.get?_put_ne (s : Store) (k k' : DBKey) (v : Str) (h : k' ≠ k) :
    (s.put k v).get? k' = s.get? k' := by
  have hk : (decide (k = k') : Bool) = false := by
    simp
    intro hh
    exact h (hh ▸ rfl)
  simp [Store.get?, Store.put, List.find?, hk, find?_filter_ne h]

@[simp] theorem Store.get?_delete_self (s : Store) (k : DBKey) :
    (s.delete k).get? k = none := by
  have : ∀ l : List (DBKey × Str),
      (l.filter (fun p => !decide (p.1 = k))).find? (fun p => decide (p.1 = k)) = none := by
    intro l
    induction l with
    | nil => rfl
    | cons a l ih =>
      by_cases ha : a.1 = k
      · simp [List.filter, ha, ih]
      · simp [List.filter, List.find?, ha, ih]
  simp [Store.get?, Store.delete, this]

theorem Store.get?_delete_ne (s : Store) (k k' : DBKey) (h : k' ≠ k) :
    (s.delete k).get? k' = s.get? k' := by
  simp [Store.get?, Store.delete, find?_filter_ne h]

theorem countP_filter_not_self (l : List (DBKey × Str)) (k : DBKey) :
    (l.filter (fun p => !decide (p.1 = k))).countP (fun p => decide (p.1 = k)) = 0 := by
  rw [List.countP_eq_zero]
  intro a ha
  have := (List.mem_filter.mp ha).2
  simpa using this

@[simp] theorem Store.countKey_put_self (s : Store) (k : DBKey) (v : Str) :
    (s.put k v).countKey k = 1 := by
  simp [Store.countKey, Store.put, List.countP_cons, countP_filter_not_self]

theorem countP_filter_ne (l : List (DBKey × Str)) {k k' : DBKey} (h : k' ≠ k) :
    (l.filter (fun p => !decide (p.1 = k))).countP (fun p => decide (p.1 = k')) =
      l.countP (fun p => decide (p.1 = k')) := by
  have hne : ¬(k = k') := fun hh => h hh.symm
  induction l with
  | nil => rfl
  | cons a l ih =>
    by_cases ha : a.1 = k
    · simp [List.filter, List.countP_cons, ha, hne, ih]
    · simp [List.filter, List.countP_cons, ha, ih]

theorem Store.countKey_put_ne (s : Store) (k k' : DBKey) (v : Str) (h : k' ≠ k) :
    (s.put k v).countKey k' = s.countKey k' := by
  have hk : (decide (k = k') : Bool) = false := by
    simp
    intro hh
    exact h (hh ▸ rfl)
  simp [Store.countKey, Store.put, List.countP_cons, hk, countP_filter_ne _ h]

theorem Store.countKey_delete_ne (s : Store) (k k' : DBKey) (h : k' ≠ k) :
    (s.delete k).countKey k' = s.countKey k' := by
  simp [Store.countKey, Store.delete, countP_filter_ne _ h]

/-- The leveldb default bytewise comparator, on embedded strings. -/
def bytewiseLt : Str → Str → Bool
  | [], [] => false
  | [], _ :: _ => true
  | _ :: _, [] => false
  | a :: as, b :: bs =>
    if a.toNat < b.toNat then true
    else if b.toNat < a.toNat then false
    else bytewiseLt as bs

/-- The keys currently stored in the UPDATE_ACTION_QUEUE namespace
(the pending-update queue the worker iterates over). -/
def queueKeys (s : Store) : List Str :=
  s.entries.filterMap (fun p =>
    if p.1.db = ServerDB.UPDATE_ACTION_QUEUE ∧ p.1.name = [] then some p.1.key else none)

/-- The key returned by SeekToFirst on the pending-update queue: the
bytewise-least key, or none when the queue is empty (the worker then
blocks on the condition variable). -/
def minQueueKey (s : Store) : Option Str :=
  match queueKeys s with
  | [] => none
  | k :: ks => some (ks.foldl (fun a b => if bytewiseLt b a then b else a) k)

/-- The ASCII whitespace set of base TrimWhitespace. -/
def isWS (c : Char) : Bool :=
  c = ' ' ∨ c = '\t' ∨ c = '\n' ∨ c = '\x0b' ∨ c = '\x0c' ∨ c = '\r'

/-- base TrimWhitespace with TRIM_ALL: strip leading and trailing
whitespace. -/
def trimWS (s : Str) : Str :=
  ((s.dropWhile isWS).reverse.dropWhile isWS).reverse

/-- Raw split of a character list at every occurrence of the
delimiter; always returns at least one (possibly empty) piece. -/
def splitOnChar (c : Char) : Str → List Str
  | [] => [[]]
  | x :: xs =>
    match splitOnChar c xs with
    | [] => [[]]
    | p :: ps => if x = c then [] :: p :: ps else (x :: p) :: ps

theorem splitOnChar_ne_nil (c : Char) (l : Str) : splitOnChar c l ≠ [] := by
  cases l with
  | nil => simp [splitOnChar]
  | cons x xs =>
    simp only [splitOnChar]
    match h : splitOnChar c xs with
    | [] => simp
    | p :: ps =>
      by_cases hx : x = c
      · simp [hx]
      · simp [hx]

theorem splitOnChar_cons (c x : Char) (xs : Str) :
    splitOnChar c (x :: xs) =
      match splitOnChar c xs with
      | [] => [[]]
      | p :: ps => if x = c then [] :: p :: ps else (x :: p) :: ps := rfl

theorem splitOnChar_append (c : Char) (ys : Str) :
    ∀ xs : Str, splitOnChar c (xs ++ c :: ys) = splitOnChar c xs ++ splitOnChar c ys := by
  intro xs
  induction xs with
  | nil =>
    simp only [List.nil_append, splitOnChar_cons]
    match h : splitOnChar c ys with
    | [] => exact absurd h (splitOnChar_ne_nil c ys)
    | p :: ps => simp [splitOnChar]
  | cons x xs ih =>
    match h : splitOnChar c xs with
    | [] => exact absurd h (splitOnChar_ne_nil c xs)
    | q :: qs =>
      rw [List.cons_append, splitOnChar_cons, splitOnChar_cons, ih, h]
      by_cases hx : x = c <;> simp [hx]

theorem splitOnChar_of_not_mem {c : Char} : ∀ {l : Str}, c ∉ l → splitOnChar c l = [l] := by
  intro l
  induction l with
  | nil => intro _; rfl
  | cons x xs ih =>
    intro h
    have hx : x ≠ c := fun hh => h (hh ▸ List.mem_cons_self x xs)
    have hxs : c ∉ xs := fun hh => h (List.mem_cons_of_mem x hh)
    simp only [splitOnChar, ih hxs]
    simp [hx]

/-- base SplitString from base/strings/string_split.cc: split on the
delimiter, trim whitespace from every piece, and avoid turning an
empty or all-whitespace input into a vector of one empty string. -/
def SplitString (s : Str) (c : Char) : List Str :=
  let ps := (splitOnChar c s).map trimWS
  if ps = [[]] then [] else ps

/-- A well-formed stored list piece: already trimmed and nonempty. -/
def wfPiece (p : Str) : Prop := trimWS p = p ∧ p ≠ []

instance (p : Str) : Decidable (wfPiece p) := by
  unfold wfPiece; infer_instance

/-- A well-formed delimited list value for delimiter c: empty, or
every raw piece is trimmed and nonempty. -/
def wfListValue (c : Char) (v : Str) : Prop :=
  v = [] ∨ ∀ p ∈ splitOnChar c v, wfPiece p

instance (c : Char) (v : Str) : Decidable (wfListValue c v) := by
  unfold wfListValue; infer_instance

/-- A string that can be appended to a delimited list and read back
as one entry: trimmed, nonempty and delimiter-free. -/
def wfEntry (c : Char) (t : Str) : Prop :=
  trimWS t = t ∧ t ≠ [] ∧ c ∉ t

instance (c : Char) (t : Str) : Decidable (wfEntry c t) := by
  unfold wfEntry; infer_instance

/-- The string written by the fanout worker into a device mailbox:
the old value, a separating comma when the old value is nonempty, and
the tuple. -/
def mbAppend (old t : Str) : Str :=
  (if old = [] then [] else old ++ [',']) ++ t

theorem map_id_of_forall {α : Type} (f : α → α) :
    ∀ l : List α, (∀ a ∈ l, f a = a) → l.map f = l := by
  intro l
  induction l with
  | nil => intro _; rfl
  | cons a l ih =>
    intro h
    simp [h a (List.mem_cons_self a l), ih (fun b hb => h b (List.mem_cons_of_mem a hb))]

theorem SplitString_singleton {c : Char} {t : Str} (h : wfEntry c t) :
    SplitString t c = [t] := by
  obtain ⟨h1, h2, h3⟩ := h
  simp [SplitString, splitOnChar_of_not_mem h3, h1, h2]

theorem SplitString_mbAppend {v t : Str}
    (ht : wfEntry ',' t) (hv : wfListValue ',' v) :
    SplitString (mbAppend v t) ',' = SplitString v ',' ++ [t] := by
  by_cases hve : v = []
  · subst hve
    have h0 : mbAppend [] t = t := by simp [mbAppend]
    rw [h0, SplitString_singleton ht]
    simp [SplitString, splitOnChar, trimWS]
  · obtain ⟨ht1, ht2, ht3⟩ := ht
    have hps : ∀ p ∈ splitOnChar ',' v, wfPiece p := by
      cases hv with
      | inl h => exact absurd h hve
      | inr h => exact h
    have hne := splitOnChar_ne_nil ',' v
    have happ : mbAppend v t = v ++ ',' :: t := by
      simp [mbAppend, hve]
    have hsplit : splitOnChar ',' (v ++ ',' :: t) = splitOnChar ',' v ++ [t] := by
      rw [splitOnChar_append ',' t v, splitOnChar_of_not_mem ht3]
    have htrim : (splitOnChar ',' v).map trimWS = splitOnChar ',' v :=
      map_id_of_forall _ _ (fun p hp => (hps p hp).1)
    have hbig : ¬(splitOnChar ',' v ++ [t] = [[]]) := by
      intro hcontra
      have h1 : (splitOnChar ',' v ++ [t]).length = 1 := by rw [hcontra]; rfl
      simp only [List.length_append, List.length_cons, List.length_nil] at h1
      have h2 : (splitOnChar ',' v).length = 0 := by omega
      exact hne (List.length_eq_zero.mp h2)
    have hvnot : ¬(splitOnChar ',' v = [[]]) := by
      intro hcontra
      have h2 : [] ∈ splitOnChar ',' v := by
        rw [hcontra]
        exact List.mem_singleton.mpr rfl
      exact (hps [] h2).2 rfl
    rw [happ]
    unfold SplitString
    simp only [hsplit, List.map_append, htrim, List.map_cons, List.map_nil, ht1]
    rw [if_neg hbig, if_neg hvnot]

theorem toDigitsCore_length_le (b : Nat) :
    ∀ (f n : Nat) (ds : List Char), ds.length ≤ (Nat.toDigitsCore b f n ds).length := by
  intro f
  induction f with
  | zero => intro n ds; simp [Nat.toDigitsCore]
  | succ f ih =>
    intro n ds
    simp only [Nat.toDigitsCore]
    by_cases h : n / b = 0
    · simp [h]
    · rw [if_neg h]
      calc ds.length ≤ (Nat.digitChar (n % b) :: ds).length := by simp
        _ ≤ _ := ih (n / b) (Nat.digitChar (n % b) :: ds)

theorem toDigits_ne_nil (b n : Nat) : Nat.toDigits b n ≠ [] := by
  unfold Nat.toDigits
  simp only [Nat.toDigitsCore]
  by_cases h : n / b = 0
  · simp [h]
  · rw [if_neg h]
    intro hcontra
    have := toDigitsCore_length_le b n (n / b) (Nat.digitChar (n % b) :: [])
    rw [hcontra] at this
    simp at this

/-- base IntToString: the decimal representation of an integer. -/
def IntToString (i : Int) : Str :=
  if i < 0 then '-' :: Nat.toDigits 10 i.natAbs else Nat.toDigits 10 i.natAbs

theorem IntToString_ne_nil (i : Int) : IntToString i ≠ [] := by
  unfold IntToString
  by_cases h : i < 0
  · simp [h]
  · simpa [h] using toDigits_ne_nil 10 i.natAbs

/-- The UserAuth Thrift struct, as used by the handlers (only the
email field is read). -/
structure UserAuth where
  email : Str
deriving DecidableEq

/-- The payload carried inside a RemotePackage: the data bytes and
the per-user encrypted session keys (the latter only appear in a
commented-out log loop in the handler). -/
structure PackagePayload where
  data : Str
  user_enc_session : List (Str × Str)
deriving DecidableEq

/-- The RemotePackage Thrift struct, as used by UploadPackage. -/
structure RemotePackage where
  top_dir : Str
  rel_path_id : Str
  payload : PackagePayload
deriving DecidableEq

/-- The PathLockRequest Thrift struct.  The handler reads top_dir and
rel_path; the caller identity (user) is carried for the intended
collaborator computation of the spec. -/
structure PathLockRequest where
  user : UserAuth
  top_dir : Str
  rel_path : Str
deriving DecidableEq

/-- The PathLockResponse Thrift struct filled by AcquireLockRelPath. -/
structure PathLockResponse where
  acquired : Bool
  users : List Str
deriving DecidableEq

/-- A 32-bit big-endian length, as four characters standing for the
four bytes. -/
def i32be (n : Nat) : Str :=
  [Char.ofNat (n / 16777216 % 256), Char.ofNat (n / 65536 % 256),
   Char.ofNat (n / 256 % 256), Char.ofNat (n % 256)]

/-- A Thrift binary-protocol field header: type byte and two field-id
bytes. -/
def fieldHdr (ty fid : Nat) : Str :=
  [Char.ofNat ty, Char.ofNat (fid / 256 % 256), Char.ofNat (fid % 256)]

/-- A Thrift binary-protocol string field: header, i32 length,
content bytes. -/
def serStringField (fid : Nat) (v : Str) : Str :=
  fieldHdr 11 fid ++ i32be v.length ++ v

/-- Modelled from the spec: the wire encoding is declared out of
scope there, and the generated Thrift code for RemotePackage::write
(produced from the repository IDL) is not under src/.  This is a
representative TBinaryProtocol struct encoding of the package used by
UploadPackage for the bytes it persists: each field framed with a
header, strings length-prefixed, structs terminated by a stop byte.
Field ids are a model choice; every faithful encoding frames the raw
payload bytes rather than emitting them alone. -/
def serModel (pkg : RemotePackage) : Str :=
  serStringField 1 pkg.top_dir ++ serStringField 2 pkg.rel_path_id ++
  fieldHdr 12 3 ++
  (serStringField 1 pkg.payload.data ++
   fieldHdr 13 2 ++ [Char.ofNat 11, Char.ofNat 11] ++
     i32be pkg.payload.user_enc_session.length ++
     pkg.payload.user_enc_session.foldr
       (fun kv acc => i32be kv.1.length ++ kv.1 ++ i32be kv.2.length ++ kv.2 ++ acc) [] ++
   [Char.ofNat 0]) ++
  [Char.ofNat 0]

/-- Modelled from the spec: base SHA1HashString is a black-box
collision-resistant digest (spec section 1 excludes the algorithm).
Stand-in used only to instantiate theorems at concrete inputs; all
general theorems quantify over the digest function. -/
def shaModel (s : Str) : Str := 'H' :: s

/-- RegisterUser from lockbox_service_handler.cc: reject an email
that already maps to a value, otherwise allocate the next UserID and
persist its decimal string under the email.  The -1 return is the
AlreadyRegistered outcome. -/
def RegisterUser (s : Store) (user : UserAuth) : Int × Store :=
  let value := s.getD ⟨ServerDB.EMAIL_USER, [], user.email⟩
  if value ≠ [] then (-1, s)
  else
    let uid : Int := Int.ofNat s.nextUserID
    let s1 : Store := { s with nextUserID := s.nextUserID + 1 }
    (uid, s1.put ⟨ServerDB.EMAIL_USER, [], user.email⟩ (IntToString uid))

/-- The body of the unbounded while loop of RegisterRelativePath,
observed for a given number of iterations: generate the next GUID
from the stream, reserve it with the sentinel value none when the
relpath map has nothing under it, otherwise retry.  A none result
means the loop was still running after consuming the given fuel. -/
def RegisterRelativePathLoop (guids : Nat → Str) (top_dir : Str) :
    Nat → Nat → Store → Option (Str × Store)
  | 0, _, _ => none
  | fuel + 1, i, s =>
    let rel_path_id := guids i
    let found := s.getD ⟨ServerDB.TOP_DIR_RELPATH, top_dir, rel_path_id⟩
    if found = [] then
      some (rel_path_id, s.put ⟨ServerDB.TOP_DIR_RELPATH, top_dir, rel_path_id⟩ ("none".data))
    else
      RegisterRelativePathLoop guids top_dir fuel (i + 1) s

/-- RegisterRelativePath from lockbox_service_handler.cc: run the
GUID allocation loop (under the namespace mutex, inessential in this
sequential embedding). -/
def RegisterRelativePath (guids : Nat → Str) (fuel : Nat) (top_dir : Str) (s : Store) :
    Option (Str × Store) :=
  RegisterRelativePathLoop guids top_dir fuel 0 s

/-- AcquireLockRelPath from lockbox_service_handler.cc: reads the
lock cell, then unconditionally reports acquired with the fixed
placeholder collaborator list; nothing is written back. -/
def AcquireLockRelPath (s : Store) (lock : PathLockRequest) : PathLockResponse × Store :=
  let _lock_status := s.getD ⟨ServerDB.TOP_DIR_RELPATH_LOCK, lock.top_dir, lock.rel_path⟩
  ({ acquired := true, users := ["me2@you.com".data] }, s)

/-- ReleaseLockRelPath from lockbox_service_handler.cc: the function
body is empty. -/
def ReleaseLockRelPath (s : Store) (_lock : PathLockRequest) : Store := s

/-- UploadPackage from lockbox_service_handler.cc, parameterized by
the SHA1 digest and the Thrift serialization it calls: hash the raw
payload bytes, read the previous HEAD of the relpath, advance HEAD to
the digest, store the PREV pointer, store the serialized package
under the digest, and return the serialized size.  The local ret
(the payload size computed on entry) is never returned by the code. -/
def UploadPackage (hash : Str → Str) (serPkg : RemotePackage → Str)
    (s : Store) (pkg : RemotePackage) : Int × Store :=
  let _ret : Int := Int.ofNat pkg.payload.data.length
  let mem := serPkg pkg
  let hash_of_prot := hash pkg.payload.data
  let previous := s.getD ⟨ServerDB.TOP_DIR_RELPATH, pkg.top_dir, pkg.rel_path_id⟩
  let s1 := s.put ⟨ServerDB.TOP_DIR_RELPATH, pkg.top_dir, pkg.rel_path_id⟩ hash_of_prot
  let s2 := s1.put ⟨ServerDB.TOP_DIR_FPTRS, pkg.top_dir, hash_of_prot⟩ previous
  let s3 := s2.put ⟨ServerDB.TOP_DIR_DATA, pkg.top_dir, hash_of_prot⟩ mem
  (Int.ofNat mem.length, s3)

/-- The DEVICE_SYNC mailbox cell of a device (partition name left
default by the worker). -/
def dsKey (d : Str) : DBKey := ⟨ServerDB.DEVICE_SYNC, [], d⟩

/-- The USER_DEVICE cell of a user (partition name left default). -/
def udKey (u : Str) : DBKey := ⟨ServerDB.USER_DEVICE, [], u⟩

/-- The durable update-log cell of a tuple. -/
def logKey (t : Str) : DBKey := ⟨ServerDB.UPDATE_ACTION_LOG, [], t⟩

/-- The pending-update-queue cell of a tuple. -/
def qKey (t : Str) : DBKey := ⟨ServerDB.UPDATE_ACTION_QUEUE, [], t⟩

/-- The EDITORS cell in the metadata partition of a top directory. -/
def metaEditorsKey (top_dir : Str) : DBKey :=
  ⟨ServerDB.TOP_DIR_META, top_dir, "EDITORS".data⟩

/-- The DEVICE_SYNC append of UpdateQueuer::Run for one device: a
failing CHECK on the Get aborts the process, embedded as the error
outcome; otherwise the tuple is appended to the mailbox value with a
comma separator. -/
def fanoutDevice (tuple : Str) (s : Store) (device : Str) : Except Str Store :=
  match s.get? (dsKey device) with
  | none => Except.error ("CHECK failed: DEVICE_SYNC Get".data)
  | some updates => Except.ok (s.put (dsKey device) (mbAppend updates tuple))

/-- The per-editor body of UpdateQueuer::Run: resolve the device list
of the user (a failing CHECK aborts, embedded as error) and append
the tuple to every device mailbox. -/
def fanoutUser (tuple : Str) (s : Store) (user : Str) : Except Str Store :=
  match s.get? (udKey user) with
  | none => Except.error (user ++ " not in USER_DEVICE".data)
  | some devices_to_update =>
    (SplitString devices_to_update ',').foldlM (fanoutDevice tuple) s

/-- One claimed tuple of UpdateQueuer::Run: append the tuple to the
durable update log, delete it from the pending queue, split it on the
underscore delimiter, resolve EDITORS of the top-dir and fan the
tuple out.  Reading update[1] from a split with fewer than four
fields is an out-of-bounds vector access in the C++ (undefined
behavior, certainly not a quarantine); it is embedded as the error
outcome, as are the failing CHECKs, which abort the process. -/
def processTuple (s0 : Store) (tuple : Str) : Except Str Store :=
  let s1 := s0.put (logKey tuple) []
  let s2 := s1.delete (qKey tuple)
  let update := SplitString tuple '_'
  if update.length < 4 then
    Except.error ("vector index out of range".data)
  else
    let top_dir := update.getD 1 []
    match s2.get? (metaEditorsKey top_dir) with
    | none => Except.error ("CHECK failed: TOP_DIR_META EDITORS Get".data)
    | some users_to_update =>
      (SplitString users_to_update ',').foldlM (fanoutUser tuple) s2

/-- One pass of the worker loop after the condition-variable wait:
none when the queue is empty (the worker blocks), otherwise the
processing of the first queued tuple. -/
def UpdateQueuerStep (s : Store) : Option (Except Str Store) :=
  (minQueueKey s).map (processTuple s)

/-- Whether a worker pass ended in a process abort (failed CHECK or
out-of-bounds access). -/
def stepAborts (o : Option (Except Str Store)) : Bool :=
  match o with
  | some (Except.error _) => true
  | _ => false

theorem key_ne_of_db_ne {k k' : DBKey} (h : k.db ≠ k'.db) : k ≠ k' :=
  fun hc => h (congrArg DBKey.db hc)

theorem dsKey_ne_of_ne {d d' : Str} (h : d ≠ d') : dsKey d ≠ dsKey d' :=
  fun hc => h (congrArg DBKey.key hc)

@[simp] theorem exceptBind_ok {α β : Type} (a : α) (f : α → Except Str β) :
    (Except.ok a >>= f) = f a := rfl

@[simp] theorem exceptBind_error {α β : Type} (e : Str) (f : α → Except Str β) :
    ((Except.error e : Except Str α) >>= f) = Except.error e := rfl

theorem foldDevices_ok (t : Str) :
    ∀ (ds : List Str) (s : Store),
      ds.Nodup →
      (∀ d ∈ ds, (s.get? (dsKey d)).isSome) →
      ∃ s', ds.foldlM (fanoutDevice t) s = Except.ok s' ∧
        (∀ d ∈ ds,
          s'.get? (dsKey d) = (s.get? (dsKey d)).map (fun old => mbAppend old t)) ∧
        (∀ k : DBKey,
          (k.db = ServerDB.DEVICE_SYNC → k.name = [] → k.key ∉ ds) →
          s'.get? k = s.get? k) ∧
        (∀ k : DBKey, k.db ≠ ServerDB.DEVICE_SYNC → s'.countKey k = s.countKey k) := by
  intro ds
  induction ds with
  | nil =>
    intro s _ _
    refine ⟨s, rfl, ?_, ?_, ?_⟩
    · intro d hd; cases hd
    · intro k _; rfl
    · intro k _; rfl
  | cons d ds ih =>
    intro s hnd hsome
    obtain ⟨v, hv⟩ := Option.isSome_iff_exists.mp (hsome d (List.mem_cons_self d ds))
    have hdnotin : d ∉ ds := (List.nodup_cons.mp hnd).1
    set s1 := s.put (dsKey d) (mbAppend v t) with hs1
    have hstep : fanoutDevice t s d = Except.ok s1 := by
      simp [fanoutDevice, hv]
    have hget1 : ∀ d' ∈ ds, s1.get? (dsKey d') = s.get? (dsKey d') := by
      intro d' hd'
      exact Store.get?_put_ne _ _ _ _ (dsKey_ne_of_ne (fun hc => hdnotin (hc ▸ hd')))
    obtain ⟨s', hfold, hchanged, hframe, hcount⟩ :=
      ih s1 (List.nodup_cons.mp hnd).2
        (fun d' hd' => by rw [hget1 d' hd']; exact hsome d' (List.mem_cons_of_mem d hd'))
    refine ⟨s', ?_, ?_, ?_, ?_⟩
    · simp [List.foldlM, hstep, hfold]
    · intro d' hd'
      rcases List.mem_cons.mp hd' with h1 | h1
      · subst h1
        rw [hframe (dsKey d') (fun _ _ => hdnotin), hs1]
        simp [hv]
      · rw [hchanged d' h1, hget1 d' h1]
    · intro k hk
      have hk' : k.db = ServerDB.DEVICE_SYNC → k.name = [] → k.key ∉ ds := by
        intro h1 h2
        exact fun hm => hk h1 h2 (List.mem_cons_of_mem d hm)
      rw [hframe k hk']
      apply Store.get?_put_ne
      intro hc
      subst hc
      exact hk rfl rfl (List.mem_cons_self _ _)
    · intro k hk
      rw [hcount k hk]
      apply Store.countKey_put_ne
      exact key_ne_of_db_ne (by simpa [dsKey] using hk)

theorem foldUsers_ok (t : Str) (devsOf : Str → Str) :
    ∀ (us : List Str) (s : Store),
      (∀ u ∈ us, s.get? (udKey u) = some (devsOf u)) →
      (∀ u ∈ us, (SplitString (devsOf u) ',').Nodup) →
      (∀ u ∈ us, ∀ d ∈ SplitString (devsOf u) ',', (s.get? (dsKey d)).isSome) →
      us.Pairwise
        (fun u u' => ∀ d ∈ SplitString (devsOf u) ',', d ∉ SplitString (devsOf u') ',') →
      ∃ s', us.foldlM (fanoutUser t) s = Except.ok s' ∧
        (∀ u ∈ us, ∀ d ∈ SplitString (devsOf u) ',',
          s'.get? (dsKey d) = (s.get? (dsKey d)).map (fun old => mbAppend old t)) ∧
        (∀ k : DBKey,
          (k.db = ServerDB.DEVICE_SYNC → k.name = [] →
            ∀ u ∈ us, k.key ∉ SplitString (devsOf u) ',') →
          s'.get? k = s.get? k) ∧
        (∀ k : DBKey, k.db ≠ ServerDB.DEVICE_SYNC → s'.countKey k = s.countKey k) := by
  intro us
  induction us with
  | nil =>
    intro s _ _ _ _
    refine ⟨s, rfl, ?_, ?_, ?_⟩
    · intro u hu; cases hu
    · intro k _; rfl
    · intro k _; rfl
  | cons u us ih =>
    intro s hud hnd hds hpw
    have hu0 := hud u (List.mem_cons_self u us)
    have hpw1 := (List.pairwise_cons.mp hpw).1
    have hpw2 := (List.pairwise_cons.mp hpw).2
    obtain ⟨s1, hfold1, hchanged1, hframe1, hcount1⟩ :=
      foldDevices_ok t (SplitString (devsOf u) ',') s
        (hnd u (List.mem_cons_self u us))
        (hds u (List.mem_cons_self u us))
    have hstep : fanoutUser t s u = Except.ok s1 := by
      simp [fanoutUser, hu0, hfold1]
    have hud1 : ∀ u' ∈ us, s1.get? (udKey u') = some (devsOf u') := by
      intro u' hu'
      rw [hframe1 (udKey u') (by intro hdb; cases hdb)]
      exact hud u' (List.mem_cons_of_mem u hu')
    have hnotin : ∀ u' ∈ us, ∀ d ∈ SplitString (devsOf u') ',',
        d ∉ SplitString (devsOf u) ',' := by
      intro u' hu' d hd hmem
      exact hpw1 u' hu' d hmem hd
    obtain ⟨s', hfold2, hchanged2, hframe2, hcount2⟩ :=
      ih s1 hud1 (fun u' hu' => hnd u' (List.mem_cons_of_mem u hu'))
        (fun u' hu' d hd => by
          rw [hframe1 (dsKey d) (fun _ _ => hnotin u' hu' d hd)]
          exact hds u' (List.mem_cons_of_mem u hu') d hd)
        hpw2
    refine ⟨s', ?_, ?_, ?_, ?_⟩
    · simp [List.foldlM, hstep, hfold2]
    · intro u' hu' d hd
      rcases List.mem_cons.mp hu' with h1 | h1
      · subst h1
        rw [hframe2 (dsKey d) (fun _ _ u'' hu'' => hpw1 u'' hu'' d hd)]
        exact hchanged1 d hd
      · rw [hchanged2 u' h1 d hd, hframe1 (dsKey d) (fun _ _ => hnotin u' h1 d hd)]
    · intro k hk
      rw [hframe2 k (fun h1 h2 u' hu' => hk h1 h2 u' (List.mem_cons_of_mem u hu')),
        hframe1 k (fun h1 h2 => hk h1 h2 u (List.mem_cons_self u us))]
    · intro k hk
      rw [hcount2 k hk, hcount1 k hk]

theorem Store.getD_put_self (s : Store) (k : DBKey) (v : Str) :
    (s.put k v).getD k = v := by
  simp [Store.getD]

theorem Store.getD_put_ne (s : Store) (k k' : DBKey) (v : Str) (h : k' ≠ k) :
    (s.put k v).getD k' = s.getD k' := by
  simp [Store.getD, Store.get?_put_ne _ _ _ _ h]

theorem queueKeys_entry_none {k : DBKey}
    (h : k.db ≠ ServerDB.UPDATE_ACTION_QUEUE) :
    (if k.db = ServerDB.UPDATE_ACTION_QUEUE ∧ k.name = [] then some k.key else none) =
      (none : Option Str) := by
  rw [if_neg]
  intro hc
  exact h hc.1

theorem queueKeys_filter_out (k : DBKey) (h : k.db ≠ ServerDB.UPDATE_ACTION_QUEUE) :
    ∀ l : List (DBKey × Str),
      (l.filter (fun p => !decide (p.1 = k))).filterMap (fun p =>
        if p.1.db = ServerDB.UPDATE_ACTION_QUEUE ∧ p.1.name = [] then some p.1.key else none) =
      l.filterMap (fun p =>
        if p.1.db = ServerDB.UPDATE_ACTION_QUEUE ∧ p.1.name = [] then some p.1.key else none) := by
  intro l
  induction l with
  | nil => rfl
  | cons a l ih =>
    by_cases ha : a.1 = k
    · have hnone : (if k.db = ServerDB.UPDATE_ACTION_QUEUE ∧ k.name = [] then
          some k.key else none) = (none : Option Str) := queueKeys_entry_none h
      simp [List.filter, List.filterMap_cons, ha, hnone, ih]
    · simp [List.filter, List.filterMap_cons, ha, ih]

theorem queueKeys_put (s : Store) (k : DBKey) (v : Str)
    (h : k.db ≠ ServerDB.UPDATE_ACTION_QUEUE) :
    queueKeys (s.put k v) = queueKeys s := by
  unfold queueKeys Store.put
  simp only [List.filterMap_cons, queueKeys_entry_none h, queueKeys_filter_out k h]

/-- C10: AcquireLockRelPath writes nothing at all — the store in the
result is the input store — and the response is always acquired=true
with the fixed collaborator list. -/
theorem acquireLock_pure_fixed_response (s : Store) (lock : PathLockRequest) :
    AcquireLockRelPath s lock = ({ acquired := true, users := ["me2@you.com".data] }, s) := rfl

/-- C8 (amended): ReleaseLockRelPath has an empty body, so it leaves
the entire store (in particular every lock cell) unchanged; it is
therefore trivially idempotent and never errors, but it does not clear
anything. -/
theorem releaseLock_is_noop (s : Store) (lock : PathLockRequest) :
    ReleaseLockRelPath s lock = s ∧
    ReleaseLockRelPath (ReleaseLockRelPath s lock) lock = ReleaseLockRelPath s lock :=
  ⟨rfl, rfl⟩

/-- C8 counterexample: on a store whose lock cell for (t, r) is held,
ReleaseLockRelPath leaves the cell held, refuting the clause that it
clears the lock-table entry. -/
theorem releaseLock_does_not_clear :
    (ReleaseLockRelPath
        ⟨[(⟨ServerDB.TOP_DIR_RELPATH_LOCK, "t".data, "r".data⟩, "held".data)], 0, 0, 0⟩
        ⟨⟨"a@x.com".data⟩, "t".data, "r".data⟩).getD
      ⟨ServerDB.TOP_DIR_RELPATH_LOCK, "t".data, "r".data⟩ = "held".data ∧
    "held".data ≠ ([] : Str) := by
  constructor
  · rfl
  · decide

/-- C5: on a store where the lock cell for (t, r) is unheld and the
top-dir EDITORS are a@x.com and b@x.com, AcquireLockRelPath called by
a@x.com writes nothing (the lock cell stays absent) and returns the
fixed list [me2@you.com] instead of the editors minus the caller. -/
theorem acquireLock_ignores_editors_and_lock_state :
    AcquireLockRelPath
        ⟨[(metaEditorsKey ("t".data), "a@x.com,b@x.com".data)], 0, 0, 0⟩
        ⟨⟨"a@x.com".data⟩, "t".data, "r".data⟩ =
      ({ acquired := true, users := ["me2@you.com".data] },
        ⟨[(metaEditorsKey ("t".data), "a@x.com,b@x.com".data)], 0, 0, 0⟩) ∧
    (AcquireLockRelPath
        ⟨[(metaEditorsKey ("t".data), "a@x.com,b@x.com".data)], 0, 0, 0⟩
        ⟨⟨"a@x.com".data⟩, "t".data, "r".data⟩).2.get?
      ⟨ServerDB.TOP_DIR_RELPATH_LOCK, "t".data, "r".data⟩ = none ∧
    ["me2@you.com".data] ≠ ["b@x.com".data] := by
  refine ⟨rfl, by decide, by decide⟩

/-- C3: UploadPackage never touches the pending-update queue — every
UPDATE_ACTION_QUEUE cell, the queue key set and the SeekToFirst result
are all identical before and after the call (the enqueue/signal step
is absent from the code). -/
theorem upload_leaves_queue_unchanged (hash : Str → Str) (serPkg : RemotePackage → Str)
    (s : Store) (pkg : RemotePackage) (n k : Str) :
    (UploadPackage hash serPkg s pkg).2.get? ⟨ServerDB.UPDATE_ACTION_QUEUE, n, k⟩ =
      s.get? ⟨ServerDB.UPDATE_ACTION_QUEUE, n, k⟩ ∧
    queueKeys (UploadPackage hash serPkg s pkg).2 = queueKeys s ∧
    minQueueKey (UploadPackage hash serPkg s pkg).2 = minQueueKey s := by
  have hq : ∀ (s' : Store) (kk : DBKey) (v : Str), kk.db ≠ ServerDB.UPDATE_ACTION_QUEUE →
      (s'.put kk v).get? ⟨ServerDB.UPDATE_ACTION_QUEUE, n, k⟩ =
        s'.get? ⟨ServerDB.UPDATE_ACTION_QUEUE, n, k⟩ := by
    intro s' kk v hkk
    apply Store.get?_put_ne
    exact key_ne_of_db_ne (fun hc => hkk hc.symm)
  refine ⟨?_, ?_, ?_⟩
  · unfold UploadPackage
    rw [hq _ _ _ (by simp), hq _ _ _ (by simp), hq _ _ _ (by simp)]
  · unfold UploadPackage
    rw [queueKeys_put _ _ _ (by simp), queueKeys_put _ _ _ (by simp),
      queueKeys_put _ _ _ (by simp)]
  · unfold minQueueKey
    rw [show queueKeys (UploadPackage hash serPkg s pkg).2 = queueKeys s by
      unfold UploadPackage
      rw [queueKeys_put _ _ _ (by simp), queueKeys_put _ _ _ (by simp),
        queueKeys_put _ _ _ (by simp)]]

/-- C1 (amended): after two sequential uploads of p1 then p2 to the
same (top_dir, rel_path), the PREV pointer under the digest of p2 is
the digest of p1 and the HEAD of the rel_path is the digest of p2;
and the PREV pointer stored by an upload equals whatever HEAD value
the rel_path had before it — the empty string exactly when the
relpath map had nothing under the path. -/
theorem upload_chain_prev_head (hash : Str → Str) (serPkg : RemotePackage → Str)
    (s : Store) (td r p1 p2 : Str) (ue1 ue2 : List (Str × Str)) :
    (UploadPackage hash serPkg (UploadPackage hash serPkg s ⟨td, r, ⟨p1, ue1⟩⟩).2
        ⟨td, r, ⟨p2, ue2⟩⟩).2.getD ⟨ServerDB.TOP_DIR_FPTRS, td, hash p2⟩ = hash p1 ∧
    (UploadPackage hash serPkg (UploadPackage hash serPkg s ⟨td, r, ⟨p1, ue1⟩⟩).2
        ⟨td, r, ⟨p2, ue2⟩⟩).2.getD ⟨ServerDB.TOP_DIR_RELPATH, td, r⟩ = hash p2 ∧
    (UploadPackage hash serPkg s ⟨td, r, ⟨p1, ue1⟩⟩).2.getD
        ⟨ServerDB.TOP_DIR_FPTRS, td, hash p1⟩ =
      s.getD ⟨ServerDB.TOP_DIR_RELPATH, td, r⟩ := by
  have hhead : ∀ (s' : Store) (p : Str) (ue : List (Str × Str)),
      (UploadPackage hash serPkg s' ⟨td, r, ⟨p, ue⟩⟩).2.getD
        ⟨ServerDB.TOP_DIR_RELPATH, td, r⟩ = hash p := by
    intro s' p ue
    unfold UploadPackage
    rw [Store.getD_put_ne _ _ _ _ (key_ne_of_db_ne (by simp)),
      Store.getD_put_ne _ _ _ _ (key_ne_of_db_ne (by simp)),
      Store.getD_put_self]
  have hprev : ∀ (s' : Store) (p : Str) (ue : List (Str × Str)),
      (UploadPackage hash serPkg s' ⟨td, r, ⟨p, ue⟩⟩).2.getD
        ⟨ServerDB.TOP_DIR_FPTRS, td, hash p⟩ =
        s'.getD ⟨ServerDB.TOP_DIR_RELPATH, td, r⟩ := by
    intro s' p ue
    unfold UploadPackage
    rw [Store.getD_put_ne _ _ _ _ (key_ne_of_db_ne (by simp)), Store.getD_put_self]
  exact ⟨by rw [hprev, hhead], hhead _ p2 ue2, hprev s p1 ue1⟩

/-- C1 counterexample: a rel_path freshly reserved by
RegisterRelativePath carries the sentinel value none in the relpath
map, so the first upload to that path stores the PREV pointer none,
not the empty string. -/
theorem upload_after_register_prev_sentinel :
    RegisterRelativePath (fun _ => ("g".data)) 1 ("t".data) ⟨[], 0, 0, 0⟩ =
      some ("g".data,
        ⟨[(⟨ServerDB.TOP_DIR_RELPATH, "t".data, "g".data⟩, "none".data)], 0, 0, 0⟩) ∧
    (UploadPackage shaModel serModel
        ⟨[(⟨ServerDB.TOP_DIR_RELPATH, "t".data, "g".data⟩, "none".data)], 0, 0, 0⟩
        ⟨"t".data, "g".data, ⟨"p1".data, []⟩⟩).2.getD
      ⟨ServerDB.TOP_DIR_FPTRS, "t".data, shaModel ("p1".data)⟩ = "none".data ∧
    "none".data ≠ ([] : Str) := by
  refine ⟨by decide, by decide, by decide⟩

/-- C6 (amended): UploadPackage stores, under the digest of the raw
payload bytes, the serialized form of the whole package — not the raw
payload — and returns the byte count of that serialized form; a
repeated upload of the identical package overwrites the cell with
identical bytes. -/
theorem upload_stores_serialized_package (hash : Str → Str) (serPkg : RemotePackage → Str)
    (s : Store) (pkg : RemotePackage) :
    (UploadPackage hash serPkg s pkg).2.getD
        ⟨ServerDB.TOP_DIR_DATA, pkg.top_dir, hash pkg.payload.data⟩ = serPkg pkg ∧
    (UploadPackage hash serPkg s pkg).1 = Int.ofNat (serPkg pkg).length ∧
    (UploadPackage hash serPkg (UploadPackage hash serPkg s pkg).2 pkg).2.getD
        ⟨ServerDB.TOP_DIR_DATA, pkg.top_dir, hash pkg.payload.data⟩ = serPkg pkg := by
  have hdata : ∀ s' : Store, (UploadPackage hash serPkg s' pkg).2.getD
      ⟨ServerDB.TOP_DIR_DATA, pkg.top_dir, hash pkg.payload.data⟩ = serPkg pkg := by
    intro s'
    unfold UploadPackage
    rw [Store.getD_put_self]
  exact ⟨hdata s, rfl, hdata _⟩

/-- C6 counterexample: with the modelled Thrift serialization, the
blob stored for a package with payload abc is not the raw payload and
the returned size is not the payload size. -/
theorem upload_blob_not_payload :
    (UploadPackage shaModel serModel ⟨[], 0, 0, 0⟩
        ⟨"t".data, "r".data, ⟨"abc".data, []⟩⟩).2.getD
      ⟨ServerDB.TOP_DIR_DATA, "t".data, shaModel ("abc".data)⟩ ≠ "abc".data ∧
    (UploadPackage shaModel serModel ⟨[], 0, 0, 0⟩
        ⟨"t".data, "r".data, ⟨"abc".data, []⟩⟩).1 ≠
      Int.ofNat ("abc".data).length := by
  refine ⟨by decide, by decide⟩

/-- C9: with a degenerate GUID generator that always returns an
already-reserved GUID, the allocation loop of RegisterRelativePath
never returns, however many iterations are observed — there is no
retry bound and no ResourceExhausted outcome in the code. -/
theorem guid_loop_never_returns_on_collision (g td : Str) (s : Store)
    (h : s.getD ⟨ServerDB.TOP_DIR_RELPATH, td, g⟩ ≠ []) :
    ∀ fuel i, RegisterRelativePathLoop (fun _ => g) td fuel i s = none := by
  intro fuel
  induction fuel with
  | zero => intro i; rfl
  | succ n ih =>
    intro i
    simp only [RegisterRelativePathLoop]
    rw [if_neg h]
    exact ih (i + 1)

/-- Witness for C9 at a concrete reserved GUID and fuel 9. -/
theorem guid_loop_never_returns_on_collision_witness :
    (⟨[(⟨ServerDB.TOP_DIR_RELPATH, "t".data, "g".data⟩, "none".data)], 0, 0, 0⟩ : Store).getD
        ⟨ServerDB.TOP_DIR_RELPATH, "t".data, "g".data⟩ ≠ [] ∧
    RegisterRelativePathLoop (fun _ => ("g".data)) ("t".data) 9 0
        ⟨[(⟨ServerDB.TOP_DIR_RELPATH, "t".data, "g".data⟩, "none".data)], 0, 0, 0⟩ = none :=
  ⟨by decide, guid_loop_never_returns_on_collision ("g".data) ("t".data) _ (by decide) 9 0⟩

/-- C4: a first RegisterUser for a fresh email returns the next
counter value — strictly above every previously issued UserID, given
that those are below the counter — persists its decimal string under
the email and bumps the counter; a second RegisterUser with the same
email returns the AlreadyRegistered value -1 and leaves the state
(mapping and counter) completely unchanged. -/
theorem registerUser_first_then_duplicate (s : Store) (user : UserAuth) (issued : List Int)
    (hfresh : s.getD ⟨ServerDB.EMAIL_USER, [], user.email⟩ = [])
    (hissued : ∀ i ∈ issued, i < Int.ofNat s.nextUserID) :
    (RegisterUser s user).1 = Int.ofNat s.nextUserID ∧
    (∀ i ∈ issued, i < (RegisterUser s user).1) ∧
    (RegisterUser s user).2.getD ⟨ServerDB.EMAIL_USER, [], user.email⟩ =
      IntToString (Int.ofNat s.nextUserID) ∧
    (RegisterUser s user).2.nextUserID = s.nextUserID + 1 ∧
    RegisterUser (RegisterUser s user).2 user = (-1, (RegisterUser s user).2) := by
  have h1 : RegisterUser s user =
      (Int.ofNat s.nextUserID,
        Store.put { s with nextUserID := s.nextUserID + 1 }
          ⟨ServerDB.EMAIL_USER, [], user.email⟩ (IntToString (Int.ofNat s.nextUserID))) := by
    unfold RegisterUser
    rw [hfresh]
    simp
  refine ⟨by rw [h1], ?_, ?_, ?_, ?_⟩
  · intro i hi
    rw [h1]
    exact hissued i hi
  · rw [h1, Store.getD_put_self]
  · rw [h1]
    rfl
  · rw [h1]
    unfold RegisterUser
    rw [Store.getD_put_self]
    simp [IntToString_ne_nil]

/-- Witness for C4 at a concrete store with counter 7 and previously
issued ids 3 and 6. -/
theorem registerUser_first_then_duplicate_witness :
    (⟨[], 7, 0, 0⟩ : Store).getD ⟨ServerDB.EMAIL_USER, [], "a@b.c".data⟩ = [] ∧
    (∀ i ∈ ([3, 6] : List Int), i < Int.ofNat (7 : Nat)) ∧
    ((RegisterUser ⟨[], 7, 0, 0⟩ ⟨"a@b.c".data⟩).1 = Int.ofNat (7 : Nat) ∧
      (∀ i ∈ ([3, 6] : List Int), i < (RegisterUser ⟨[], 7, 0, 0⟩ ⟨"a@b.c".data⟩).1) ∧
      (RegisterUser ⟨[], 7, 0, 0⟩ ⟨"a@b.c".data⟩).2.getD
          ⟨ServerDB.EMAIL_USER, [], "a@b.c".data⟩ = IntToString (Int.ofNat (7 : Nat)) ∧
      (RegisterUser ⟨[], 7, 0, 0⟩ ⟨"a@b.c".data⟩).2.nextUserID = 7 + 1 ∧
      RegisterUser (RegisterUser ⟨[], 7, 0, 0⟩ ⟨"a@b.c".data⟩).2 ⟨"a@b.c".data⟩ =
        (-1, (RegisterUser ⟨[], 7, 0, 0⟩ ⟨"a@b.c".data⟩).2)) :=
  ⟨by decide, by decide,
    registerUser_first_then_duplicate ⟨[], 7, 0, 0⟩ ⟨"a@b.c".data⟩ [3, 6]
      (by decide) (by decide)⟩

/-- C7: a pending tuple that does not split into at least four fields
makes the worker read the split vector out of bounds, and a
well-formed tuple whose top-dir has no EDITORS record, or whose
editor has no USER_DEVICE record, fails a CHECK: all three abort the
worker process; nothing is quarantined. -/
theorem worker_aborts_on_bad_records :
    stepAborts (UpdateQueuerStep ⟨[(qKey ("badtuple".data), [])], 0, 0, 0⟩) = true ∧
    stepAborts (UpdateQueuerStep ⟨[(qKey ("5_t_r_h".data), [])], 0, 0, 0⟩) = true ∧
    stepAborts (UpdateQueuerStep
      ⟨[(qKey ("5_t_r_h".data), []),
        (metaEditorsKey ("t".data), "u1".data)], 0, 0, 0⟩) = true := by
  refine ⟨by decide, by decide, by decide⟩

/-- C2: when the worker claims a well-formed pending tuple — it is
the first queue key, splits into at least four fields, its top-dir
EDITORS and every editor's USER_DEVICE and every device's DEVICE_SYNC
records resolve, the parsed device lists are duplicate-free and
pairwise disjoint, the tuple is comma-free and the mailboxes are
well-formed comma lists — then the pass completes, the tuple sits in
the durable update log exactly once, it is gone from the pending
queue, and every device mailbox of every editor has exactly the old
entries followed by one new entry equal to the tuple. -/
theorem fanout_delivers_tuple (s : Store) (t edstr : Str) (devsOf mbOf : Str → Str)
    (hmin : minQueueKey s = some t)
    (hlen : ¬(SplitString t '_').length < 4)
    (heds : s.get? (metaEditorsKey ((SplitString t '_').getD 1 [])) = some edstr)
    (hud : ∀ u ∈ SplitString edstr ',', s.get? (udKey u) = some (devsOf u))
    (hds : ∀ u ∈ SplitString edstr ',', ∀ d ∈ SplitString (devsOf u) ',',
      s.get? (dsKey d) = some (mbOf d))
    (hnd : ∀ u ∈ SplitString edstr ',', (SplitString (devsOf u) ',').Nodup)
    (hpw : (SplitString edstr ',').Pairwise
      (fun u u' => ∀ d ∈ SplitString (devsOf u) ',', d ∉ SplitString (devsOf u') ','))
    (ht : wfEntry ',' t)
    (hmb : ∀ u ∈ SplitString edstr ',', ∀ d ∈ SplitString (devsOf u) ',',
      wfListValue ',' (mbOf d)) :
    ∃ s', UpdateQueuerStep s = some (Except.ok s') ∧
      s'.get? (logKey t) = some [] ∧
      s'.countKey (logKey t) = 1 ∧
      s'.get? (qKey t) = none ∧
      ∀ u ∈ SplitString edstr ',', ∀ d ∈ SplitString (devsOf u) ',',
        s'.get? (dsKey d) = some (mbAppend (mbOf d) t) ∧
        SplitString (mbAppend (mbOf d) t) ',' = SplitString (mbOf d) ',' ++ [t] := by
  set s2 := ((s.put (logKey t) []).delete (qKey t)) with hs2
  have htrans : ∀ k : DBKey, k ≠ logKey t → k ≠ qKey t → s2.get? k = s.get? k := by
    intro k h1 h2
    rw [hs2, Store.get?_delete_ne _ _ _ h2, Store.get?_put_ne _ _ _ _ h1]
  have heds2 : s2.get? (metaEditorsKey ((SplitString t '_').getD 1 [])) = some edstr := by
    rw [htrans _ (key_ne_of_db_ne (by simp [metaEditorsKey, logKey]))
      (key_ne_of_db_ne (by simp [metaEditorsKey, qKey]))]
    exact heds
  have hud2 : ∀ u ∈ SplitString edstr ',', s2.get? (udKey u) = some (devsOf u) := by
    intro u hu
    rw [htrans _ (key_ne_of_db_ne (by simp [udKey, logKey]))
      (key_ne_of_db_ne (by simp [udKey, qKey]))]
    exact hud u hu
  have hds2 : ∀ u ∈ SplitString edstr ',', ∀ d ∈ SplitString (devsOf u) ',',
      s2.get? (dsKey d) = some (mbOf d) := by
    intro u hu d hd
    rw [htrans _ (key_ne_of_db_ne (by simp [dsKey, logKey]))
      (key_ne_of_db_ne (by simp [dsKey, qKey]))]
    exact hds u hu d hd
  obtain ⟨s', hfold, hchanged, hframe, hcount⟩ :=
    foldUsers_ok t devsOf (SplitString edstr ',') s2 hud2 hnd
      (fun u hu d hd => by rw [hds2 u hu d hd]; rfl) hpw
  have hproc : processTuple s t = Except.ok s' := by
    simp only [processTuple]
    rw [← hs2, if_neg hlen, heds2]
    exact hfold
  refine ⟨s', ?_, ?_, ?_, ?_, ?_⟩
  · unfold UpdateQueuerStep
    rw [hmin]
    simp [hproc]
  · rw [hframe (logKey t) (by intro hdb; simp [logKey] at hdb), hs2,
      Store.get?_delete_ne _ _ _ (key_ne_of_db_ne (by simp [logKey, qKey])),
      Store.get?_put_self]
  · rw [hcount (logKey t) (by simp [logKey]), hs2,
      Store.countKey_delete_ne _ _ _ (key_ne_of_db_ne (by simp [logKey, qKey])),
      Store.countKey_put_self]
  · rw [hframe (qKey t) (by intro hdb; simp [qKey] at hdb), hs2,
      Store.get?_delete_self]
  · intro u hu d hd
    refine ⟨?_, SplitString_mbAppend ht (hmb u hu d hd)⟩
    rw [hchanged u hu d hd, hds2 u hu d hd]
    rfl

/-- Witness for C2 on the concrete scenario of the spec: a top-dir t
with editors u1@x and u2@x, device 1 owned by u1@x, devices 2 and 3
owned by u2@x, device 2 holding one earlier mailbox entry, and the
pending tuple 5_t_r_h. -/
theorem fanout_delivers_tuple_witness :
    (minQueueKey
        ⟨[(qKey ("5_t_r_h".data), []),
          (metaEditorsKey ("t".data), "u1@x,u2@x".data),
          (udKey ("u1@x".data), "1".data),
          (udKey ("u2@x".data), "2,3".data),
          (dsKey ("1".data), []),
          (dsKey ("2".data), "0_t_r_g".data),
          (dsKey ("3".data), [])], 0, 0, 0⟩ = some ("5_t_r_h".data)) ∧
    (∃ s', UpdateQueuerStep
        ⟨[(qKey ("5_t_r_h".data), []),
          (metaEditorsKey ("t".data), "u1@x,u2@x".data),
          (udKey ("u1@x".data), "1".data),
          (udKey ("u2@x".data), "2,3".data),
          (dsKey ("1".data), []),
          (dsKey ("2".data), "0_t_r_g".data),
          (dsKey ("3".data), [])], 0, 0, 0⟩ = some (Except.ok s') ∧
      s'.get? (logKey ("5_t_r_h".data)) = some [] ∧
      s'.countKey (logKey ("5_t_r_h".data)) = 1 ∧
      s'.get? (qKey ("5_t_r_h".data)) = none ∧
      ∀ u ∈ SplitString ("u1@x,u2@x".data) ',',
        ∀ d ∈ SplitString ((fun u => if u = "u1@x".data then "1".data else "2,3".data) u) ',',
          s'.get? (dsKey d) =
            some (mbAppend ((fun d => if d = "2".data then "0_t_r_g".data else []) d)
              ("5_t_r_h".data)) ∧
          SplitString
              (mbAppend ((fun d => if d = "2".data then "0_t_r_g".data else []) d)
                ("5_t_r_h".data)) ',' =
            SplitString ((fun d => if d = "2".data then "0_t_r_g".data else []) d) ','
              ++ ["5_t_r_h".data]) :=
  ⟨by decide,
    fanout_delivers_tuple _ ("5_t_r_h".data) ("u1@x,u2@x".data)
      (fun u => if u = "u1@x".data then "1".data else "2,3".data)
      (fun d => if d = "2".data then "0_t_r_g".data else [])
      (by decide) (by decide) (by decide) (by decide) (by decide) (by decide)
      (by decide) (by decide) (by decide)⟩

end Lockbox
